import Mathlib

/-!
A verification development for the duplicate-detection and batch-resolution
engine of `chorus_download.py` (functions `find_duplicates_of_sng_in_library`
and `remove_duplicates`).

Modelling conventions:
* Paths are plain strings, assumed already absolute and normalized, so
  `os.path.abspath` is the identity on them; `os.path.join d f` (with `f`
  a relative component) is `d ++ "/" ++ f`.
* The filesystem as seen by `os.walk` over the library roots is modelled by
  the concatenated list of walk entries `(root, dirs, files)` that the walk
  produces; scanning is read-only so this list is a faithful snapshot.
* Reading a candidate folder's `song.ini` is modelled by an optional
  `IniRead`: `none` means the file is absent (`os.path.exists` is false);
  `IniRead.err` means the `try` block raised (undecodable bytes, a parse
  error, or an interpolation error while extracting values); and
  `IniRead.fields n a c` means extraction succeeded with the three optional
  `[song]` values (configparser's `get` with `fallback=None` returns `None`
  both for a missing option and for a missing/`None` section, without
  raising).
* Python `str.lower` is modelled by mapping `Char.toLower` over the
  characters (the claims only involve ASCII data).
* Python's `\d` is modelled by `Char.isDigit`.
-/

set_option autoImplicit false

namespace ChorusDownload

/-- `os.path.join d f` for a relative second component `f`. -/
def pjoin (d f : String) : String := d ++ "/" ++ f

/-- `os.path.basename p`: the part of `p` after the last `'/'`. -/
def basename (p : String) : String :=
  String.mk ((p.data.reverse.takeWhile (fun c => c ≠ '/')).reverse)

/-- `needle` is a prefix of `hay` (on character lists). -/
def firstMatch : List Char → List Char → Bool
  | [], _ => true
  | _ :: _, [] => false
  | a :: as, b :: bs => a = b && firstMatch as bs

/-- `needle` occurs as a contiguous run inside `hay` (on character lists). -/
def listContains (needle : List Char) : List Char → Bool
  | [] => needle.isEmpty
  | b :: bs => firstMatch needle (b :: bs) || listContains needle bs

/-- Python `needle in hay` on strings: substring containment. -/
def strContains (hay needle : String) : Bool := listContains needle.data hay.data

/-- Python `str.lower`, modelled characterwise. -/
def pyLower (s : String) : String := String.mk (s.data.map Char.toLower)

/-! ### The filename pattern

`re.match(r"(.+?) - (.+?) \((.+?)\)(?: \(\d+\))?\.sng", song_name)` with its
three lazy capture groups.  `re.match` anchors only at the start, so
characters after the matched `".sng"` are unconstrained, and `.` matches any
character except a newline.  The lazy groups mean: the shortest artist for
which the remainder of the pattern can match, then the shortest title, then
the shortest charter. -/

/-- The literal `\.sng` at the end of the pattern (the rest of the string is
unconstrained because `re.match` has no end anchor). -/
def dotSng : List Char → Bool
  | '.' :: 's' :: 'n' :: 'g' :: _ => true
  | _ => false

/-- After the first digit of the optional counter: the remaining digits of
`\d+`, then `\)` and `\.sng`. -/
def digitsClose : List Char → Bool
  | [] => false
  | c :: rest => if c.isDigit then digitsClose rest else c = ')' && dotSng rest

/-- The pattern tail after the charter's closing parenthesis: the optional
`(?: \(\d+\))?` counter, then `\.sng`. -/
def tailMatch (cs : List Char) : Bool :=
  (match cs with
   | ' ' :: '(' :: c :: rest => c.isDigit && digitsClose rest
   | _ => false)
  || dotSng cs

/-- The lazy charter group `\((.+?)\)` followed by the pattern tail: `acc`
holds the (reversed) characters matched so far; at each position the group
first tries to close (shortest match) and otherwise extends by one
non-newline character. -/
def charterLoop : List Char → List Char → Option String
  | _, [] => none
  | acc, c :: rest =>
    if acc ≠ [] ∧ c = ')' ∧ tailMatch rest then some (String.mk acc.reverse)
    else if c = '\n' then none
    else charterLoop (c :: acc) rest

/-- Closing attempt for the title group: after the group's `' '` the literal
`'('` must follow, then the charter group and the tail. -/
def nameClose (acc rest : List Char) : Option (String × String) :=
  if rest.head? = some '(' then
    (charterLoop [] rest.tail).map (fun ch => (String.mk acc.reverse, ch))
  else none

/-- The lazy title group `(.+?)` followed by ` \(`, the charter group and the
tail. -/
def nameLoop : List Char → List Char → Option (String × String)
  | _, [] => none
  | acc, c :: rest =>
    match (if acc ≠ [] ∧ c = ' ' then nameClose acc rest else none) with
    | some r => some r
    | none => if c = '\n' then none else nameLoop (c :: acc) rest

/-- Closing attempt for the artist group: after the group's `' '` the literal
`"- "` must follow, then the title group and the rest of the pattern. -/
def artistClose (acc rest : List Char) : Option (String × String × String) :=
  if rest.head? = some '-' ∧ rest.tail.head? = some ' ' then
    (nameLoop [] rest.tail.tail).map (fun p => (String.mk acc.reverse, p.1, p.2))
  else none

/-- The lazy artist group `(.+?)` followed by the literal `" - "` and the rest
of the pattern. -/
def artistLoop : List Char → List Char → Option (String × String × String)
  | _, [] => none
  | acc, c :: rest =>
    match (if acc ≠ [] ∧ c = ' ' then artistClose acc rest else none) with
    | some r => some r
    | none => if c = '\n' then none else artistLoop (c :: acc) rest

/-- Lines 28-33: the anchored pattern match extracting
`(artist, name, charter)` from a filename, `none` when the pattern does not
match. -/
def parseSngName (song_name : String) : Option (String × String × String) :=
  artistLoop [] song_name.data

/-! ### The library scan and the duplicate decision -/

/-- Result of the `try` block reading a candidate folder's `song.ini`
(lines 61-73): `err` when the block raised (undecodable or malformed file,
or an extraction error) and `fields` with the three optional `[song]` values
otherwise. -/
inductive IniRead where
  | err : IniRead
  | fields (name artist charter : Option String) : IniRead
deriving DecidableEq

/-- A subdirectory seen during the walk: its name and its `song.ini`
(`none` when `os.path.exists(song_ini_path)` is false). -/
structure Subdir where
  name : String
  ini : Option IniRead
deriving DecidableEq

/-- One `(root, dirs, files)` triple yielded by `os.walk`. -/
structure WalkEntry where
  root : String
  dirs : List Subdir
  files : List String
deriving DecidableEq

/-- `charter_verification.get(charter, {}).get("parent_dir_substring", "")`:
the per-charter hint table, modelled as an association list. -/
def lookupHint (cv : List (String × String)) (charter : String) : String :=
  match cv.find? (fun p => p.1 == charter) with
  | some p => p.2
  | none => ""

/-- Lines 76-81: the metadata comparison, including Python's truthiness test
(`ini_name and ini_artist and ini_charter`), so an empty-string field also
fails the test. -/
def iniFieldsMatch (artist name charter : String) :
    Option String → Option String → Option String → Bool
  | some n, some a, some c =>
    n != "" && a != "" && c != "" &&
    pyLower n == pyLower name &&
    pyLower a == pyLower artist &&
    strContains (pyLower c) (pyLower charter)
  | _, _, _ => false

/-- Lines 87-103: the fallback charter verification run from the `except`
handler.  First the hint-substring check against the candidate folder's path,
then the literal (case-sensitive) charter-in-directory-name check. -/
def fallbackVerify (charter : String) (cv : List (String × String))
    (dirPath dirName : String) : Bool :=
  let sub := lookupHint cv charter
  if sub != "" && strContains dirPath sub then true
  else strContains dirName charter

/-- Lines 57-103: the per-subdirectory candidate check.  The gate is the
case-insensitive containment of `"<artist> - <name>"` in the directory name;
a missing `song.ini` skips the candidate entirely; a successful read runs
only the metadata comparison; a raising read runs only the fallback. -/
def checkSubdir (artist name charter : String) (cv : List (String × String))
    (root : String) (d : Subdir) : Bool :=
  if strContains (pyLower d.name) (pyLower (artist ++ " - " ++ name)) then
    match d.ini with
    | none => false
    | some (IniRead.fields n a c) => iniFieldsMatch artist name charter n a c
    | some IniRead.err => fallbackVerify charter cv (pjoin root d.name) d.name
  else false

/-- Lines 38-103, one `(root, dirs, files)` step of the walk: if any file of
the directory resolves to the batch file's own path the whole directory is
skipped (`continue`); otherwise an exact filename hit returns true, and
otherwise each subdirectory candidate is checked. -/
def walkEntryHit (song_filepath song_name artist name charter : String)
    (cv : List (String × String)) (e : WalkEntry) : Bool :=
  if e.files.any (fun f => pjoin e.root f == song_filepath) then false
  else if e.files.contains song_name then true
  else e.dirs.any (checkSubdir artist name charter cv e.root)

/-- Lines 24-105: `find_duplicates_of_sng_in_library`.  `walks` is the
concatenation of the `os.walk` sequences over the supplied library roots. -/
def find_duplicates_of_sng_in_library (song_filepath : String)
    (walks : List WalkEntry) (cv : List (String × String)) : Bool :=
  let song_name := basename song_filepath
  match parseSngName song_name with
  | none => false
  | some (artist, name, charter) =>
    walks.any (walkEntryHit song_filepath song_name artist name charter cv)

/-! ### The batch resolver -/

/-- `re.sub(r" \(\d+\)\.sng$", ".sng", filename)`, as an option: `some` of
the stripped name when the end-anchored counter pattern matches, `none`
otherwise. -/
def stripCounter (f : String) : Option String :=
  match f.data.reverse with
  | 'g' :: 'n' :: 's' :: '.' :: ')' :: rest =>
    if (rest.takeWhile Char.isDigit).isEmpty then none
    else
      match rest.dropWhile Char.isDigit with
      | '(' :: ' ' :: rest3 => some (String.mk rest3.reverse ++ ".sng")
      | _ => none
  | _ => none

/-- Line 113: the normalized name (`base_name`). -/
def subSuffix (f : String) : String := (stripCounter f).getD f

/-- Line 138: `re.search(r" \(\d+\)\.sng$", filename)` succeeded. -/
def hasCounter (f : String) : Bool := (stripCounter f).isSome

/-- Line 111: `filename.endswith(".sng")`. -/
def endsSng (f : String) : Bool :=
  match f.data.reverse with
  | 'g' :: 'n' :: 's' :: '.' :: _ => true
  | _ => false

/-- Which `os.remove` deleted a file: the library-duplicate branch
(lines 119-126) or the intra-batch comparison branch (lines 128-145).  The
two branches log distinct messages, so the distinction is observable. -/
inductive RemKind where
  | libdup : RemKind
  | batch : RemKind
deriving DecidableEq

/-- Outcome of a `remove_duplicates` run: the removed file paths (in
chronological order, each tagged with the branch that removed it) and the
final `files_dict` (an association list from normalized name to the kept
`(file_path, file_size)`). -/
structure BatchResult where
  removed : List (String × RemKind)
  kept : List (String × String × Nat)
deriving DecidableEq

/-- `files_dict[base_name]`: lookup in the association list. -/
def dictFind : List (String × String × Nat) → String → Option (String × Nat)
  | [], _ => none
  | p :: rest, k => if p.1 == k then some p.2 else dictFind rest k

/-- `files_dict[base_name] = v`: replace the entry at the key, or append. -/
def dictSet (dict : List (String × String × Nat)) (k : String)
    (v : String × Nat) : List (String × String × Nat) :=
  match dict with
  | [] => [(k, v)]
  | p :: rest => if p.1 == k then (k, v) :: rest else p :: dictSet rest k v

/-- Lines 110-148: the loop body of `remove_duplicates` over the directory
listing (each entry a `(filename, file_size)` pair), threading `files_dict`
and producing the removals in order. -/
def removeDupGo (directory : String) (walks : List WalkEntry)
    (cv : List (String × String)) (dry_run : Bool) :
    List (String × Nat) → List (String × String × Nat) → BatchResult
  | [], dict => ⟨[], dict⟩
  | (filename, size) :: rest, dict =>
    if endsSng filename then
      let base := subSuffix filename
      let path := pjoin directory filename
      if find_duplicates_of_sng_in_library path walks cv then
        if dry_run then removeDupGo directory walks cv dry_run rest dict
        else
          let r := removeDupGo directory walks cv dry_run rest dict
          ⟨(path, RemKind.libdup) :: r.removed, r.kept⟩
      else
        match dictFind dict base with
        | some (epath, esize) =>
          if size > esize then
            let r := removeDupGo directory walks cv dry_run rest
              (dictSet dict base (path, size))
            ⟨(epath, RemKind.batch) :: r.removed, r.kept⟩
          else if size = esize then
            if hasCounter filename then
              let r := removeDupGo directory walks cv dry_run rest dict
              ⟨(path, RemKind.batch) :: r.removed, r.kept⟩
            else
              let r := removeDupGo directory walks cv dry_run rest
                (dictSet dict base (path, size))
              ⟨(epath, RemKind.batch) :: r.removed, r.kept⟩
          else
            let r := removeDupGo directory walks cv dry_run rest dict
            ⟨(path, RemKind.batch) :: r.removed, r.kept⟩
        | none =>
          removeDupGo directory walks cv dry_run rest
            (dictSet dict base (path, size))
    else removeDupGo directory walks cv dry_run rest dict

/-- Lines 107-150: `remove_duplicates`, started with an empty `files_dict`. -/
def remove_duplicates (directory : String) (listing : List (String × Nat))
    (walks : List WalkEntry) (cv : List (String × String)) (dry_run : Bool) :
    BatchResult :=
  removeDupGo directory walks cv dry_run listing []

/-- The paths removed by a run. -/
def removedPaths (r : BatchResult) : List String := r.removed.map Prod.fst

/-- The on-disk listing after a run: the entries whose path was not removed. -/
def survivors (directory : String) (listing : List (String × Nat))
    (r : BatchResult) : List (String × Nat) :=
  listing.filter (fun e => !(removedPaths r).contains (pjoin directory e.1))

/-- Record a successful removal in front of a pending run outcome; an error
outcome passes through unchanged. -/
def consRemoved (p : String × RemKind) :
    Except String BatchResult → Except String BatchResult
  | Except.ok r => Except.ok ⟨p :: r.removed, r.kept⟩
  | Except.error e => Except.error e

/-- The same loop when `os.remove` may raise: `removeOk` tells which paths
can be removed; a failing removal propagates the `OSError` out of the
function (the source has no handler around `os.remove`), modelled by
`Except.error` carrying the failing path. -/
def removeDupExc (directory : String) (walks : List WalkEntry)
    (cv : List (String × String)) (dry_run : Bool) (removeOk : String → Bool) :
    List (String × Nat) → List (String × String × Nat) →
    Except String BatchResult
  | [], dict => Except.ok ⟨[], dict⟩
  | (filename, size) :: rest, dict =>
    if endsSng filename then
      let base := subSuffix filename
      let path := pjoin directory filename
      if find_duplicates_of_sng_in_library path walks cv then
        if dry_run then removeDupExc directory walks cv dry_run removeOk rest dict
        else if removeOk path then
          consRemoved (path, RemKind.libdup)
            (removeDupExc directory walks cv dry_run removeOk rest dict)
        else Except.error path
      else
        match dictFind dict base with
        | some (epath, esize) =>
          if size > esize then
            if removeOk epath then
              consRemoved (epath, RemKind.batch)
                (removeDupExc directory walks cv dry_run removeOk rest
                  (dictSet dict base (path, size)))
            else Except.error epath
          else if size = esize then
            if hasCounter filename then
              if removeOk path then
                consRemoved (path, RemKind.batch)
                  (removeDupExc directory walks cv dry_run removeOk rest dict)
              else Except.error path
            else
              if removeOk epath then
                consRemoved (epath, RemKind.batch)
                  (removeDupExc directory walks cv dry_run removeOk rest
                    (dictSet dict base (path, size)))
              else Except.error epath
          else
            if removeOk path then
              consRemoved (path, RemKind.batch)
                (removeDupExc directory walks cv dry_run removeOk rest dict)
            else Except.error path
        | none =>
          removeDupExc directory walks cv dry_run removeOk rest
            (dictSet dict base (path, size))
    else removeDupExc directory walks cv dry_run removeOk rest dict

/-- `remove_duplicates` with fallible removal, from an empty `files_dict`. -/
def remove_duplicates_exc (directory : String) (listing : List (String × Nat))
    (walks : List WalkEntry) (cv : List (String × String)) (dry_run : Bool)
    (removeOk : String → Bool) : Except String BatchResult :=
  removeDupExc directory walks cv dry_run removeOk listing []

end ChorusDownload

namespace ChorusDownload

example : parseSngName "A - B (C).sng" = some ("A", "B", "C") := by decide

example : parseSngName "A - B (C) (2).sng" = some ("A", "B", "C") := by decide

example : parseSngName "foo.sng" = none := by decide

example : parseSngName "foo (1).sng" = none := by decide

example : parseSngName "Ar - Ti - Tle (Ch).sng" = some ("Ar", "Ti - Tle", "Ch") := by decide

example : parseSngName "A - B (C) (D).sng" = some ("A", "B", "C) (D") := by decide

example :
    find_duplicates_of_sng_in_library "/b/A - B (C).sng"
      [⟨"/lib", [], ["A - B (C).sng"]⟩] [] = true := by decide

example :
    find_duplicates_of_sng_in_library "/lib/A - B (C).sng"
      [⟨"/lib", [], ["A - B (C).sng"]⟩] [] = false := by decide

example :
    find_duplicates_of_sng_in_library "/b/A - B (C).sng"
      [⟨"/lib", [⟨"a - b [x]", some (IniRead.fields (some "b") (some "A") (some "xCy"))⟩], []⟩]
      [] = true := by decide

example :
    find_duplicates_of_sng_in_library "/b/A - B (C).sng"
      [⟨"/lib", [⟨"A - B", some IniRead.err⟩], []⟩]
      [("C", "/li")] = true := by decide

example :
    remove_duplicates "/dl" [("A - B (C).sng", 100), ("A - B (C) (1).sng", 100)] [] [] false =
      ⟨[("/dl/A - B (C) (1).sng", RemKind.batch)],
       [("A - B (C).sng", "/dl/A - B (C).sng", 100)]⟩ := by decide

example :
    remove_duplicates "/dl" [("A - B (C).sng", 50), ("A - B (C) (1).sng", 200)] [] [] false =
      ⟨[("/dl/A - B (C).sng", RemKind.batch)],
       [("A - B (C).sng", "/dl/A - B (C) (1).sng", 200)]⟩ := by decide

example :
    remove_duplicates "/dl" [("foo.sng", 100), ("foo (1).sng", 50)] [] [] false =
      ⟨[("/dl/foo (1).sng", RemKind.batch)],
       [("foo.sng", "/dl/foo.sng", 100)]⟩ := by decide

/-! ### Basic lemmas -/

theorem pyLower_eq_empty_iff (s : String) : pyLower s = "" ↔ s = "" := by
  constructor
  · intro h
    have h2 : s.data.map Char.toLower = [] := by
      have h3 := congrArg String.data h
      simpa [pyLower] using h3
    exact String.ext (by simpa using h2)
  · rintro rfl
    decide

theorem strContains_empty_hay (needle : String)
    (h : strContains "" needle = true) : needle = "" := by
  unfold strContains at h
  have hd : needle.data = [] := by
    cases hne : needle.data with
    | nil => rfl
    | cons x xs =>
      rw [hne] at h
      simp [listContains] at h
  exact String.ext (by simpa using hd)

/-- The three capture groups of the pattern are nonempty (`.+?`). -/
theorem charterLoop_some_ne (cs : List Char) :
    ∀ acc ch, charterLoop acc cs = some ch → ch ≠ "" := by
  induction cs with
  | nil => intro acc ch h; simp [charterLoop] at h
  | cons x rest ih =>
    intro acc ch h
    rw [charterLoop] at h
    split at h
    · rename_i hcond
      injection h with h
      subst h
      intro habs
      have hrev : acc.reverse = [] := by
        have h4 := congrArg String.data habs
        simpa using h4
      rw [List.reverse_eq_nil_iff] at hrev
      exact hcond.1 hrev
    · split at h
      · cases h
      · exact ih _ _ h

theorem nameClose_some (acc rest : List Char) (nm ch : String)
    (h : nameClose acc rest = some (nm, ch)) :
    nm = String.mk acc.reverse ∧ ch ≠ "" := by
  unfold nameClose at h
  split at h
  · rw [Option.map_eq_some'] at h
    obtain ⟨b, hb, hval⟩ := h
    cases hval
    exact ⟨rfl, charterLoop_some_ne _ _ _ hb⟩
  · exact Option.noConfusion h

theorem nameLoop_some_ne (cs : List Char) :
    ∀ acc nm ch, nameLoop acc cs = some (nm, ch) → nm ≠ "" ∧ ch ≠ "" := by
  induction cs with
  | nil => intro acc nm ch h; simp [nameLoop] at h
  | cons x rest ih =>
    intro acc nm ch h
    rw [nameLoop] at h
    split at h
    · rename_i val heq
      injection h with h
      subst h
      split at heq
      · rename_i hcond
        obtain ⟨h1, h2⟩ := nameClose_some _ _ _ _ heq
        refine ⟨?_, h2⟩
        rw [h1]
        intro habs
        have hrev : acc.reverse = [] := by
          have h4 := congrArg String.data habs
          simpa using h4
        rw [List.reverse_eq_nil_iff] at hrev
        exact hcond.1 hrev
      · exact Option.noConfusion heq
    · split at h
      · exact Option.noConfusion h
      · exact ih _ _ _ h

theorem artistClose_some (acc rest : List Char) (a nm ch : String)
    (h : artistClose acc rest = some (a, nm, ch)) :
    a = String.mk acc.reverse ∧ nm ≠ "" ∧ ch ≠ "" := by
  unfold artistClose at h
  split at h
  · rw [Option.map_eq_some'] at h
    obtain ⟨b, hb, hval⟩ := h
    obtain ⟨b1, b2⟩ := b
    cases hval
    exact ⟨rfl, nameLoop_some_ne _ _ _ _ hb⟩
  · exact Option.noConfusion h

theorem artistLoop_some_ne (cs : List Char) :
    ∀ acc a nm ch, artistLoop acc cs = some (a, nm, ch) →
      a ≠ "" ∧ nm ≠ "" ∧ ch ≠ "" := by
  induction cs with
  | nil => intro acc a nm ch h; simp [artistLoop] at h
  | cons x rest ih =>
    intro acc a nm ch h
    rw [artistLoop] at h
    split at h
    · rename_i val heq
      injection h with h
      subst h
      split at heq
      · rename_i hcond
        obtain ⟨h1, h2⟩ := artistClose_some _ _ _ _ _ heq
        refine ⟨?_, h2⟩
        rw [h1]
        intro habs
        have hrev : acc.reverse = [] := by
          have h4 := congrArg String.data habs
          simpa using h4
        rw [List.reverse_eq_nil_iff] at hrev
        exact hcond.1 hrev
      · exact Option.noConfusion heq
    · split at h
      · exact Option.noConfusion h
      · exact ih _ _ _ _ h

theorem parseSngName_parts_ne (s artist name charter : String)
    (h : parseSngName s = some (artist, name, charter)) :
    artist ≠ "" ∧ name ≠ "" ∧ charter ≠ "" :=
  artistLoop_some_ne _ _ _ _ _ h

/-! ### Claims -/

/-- C8: for every filename that does not match the grammar, the Key Parser
yields no key and `find_duplicates_of_sng_in_library` returns false
unconditionally, whatever library walks and verification rules are
supplied. -/
theorem unparseable_checker_false (p : String) (walks : List WalkEntry)
    (cv : List (String × String))
    (h : parseSngName (basename p) = none) :
    find_duplicates_of_sng_in_library p walks cv = false := by
  simp [find_duplicates_of_sng_in_library, h]

theorem unparseable_checker_false_witness :
    parseSngName (basename "/dl/foo.sng") = none ∧
    find_duplicates_of_sng_in_library "/dl/foo.sng"
      [⟨"/lib", [⟨"foo", some IniRead.err⟩], ["foo.sng"]⟩]
      [("C", "/lib")] = false :=
  ⟨by decide, unparseable_checker_false _ _ _ (by decide)⟩

/-- C4, counterexample: the batch file `/lib/A - B (C).sng` lies in a walked
library directory that also holds a matching folder candidate `A - B`; the
candidate would be confirmed by its metadata (first conjunct), yet the
checker returns false because the whole directory entry is skipped, so the
co-located candidate is never examined. -/
theorem colocated_candidate_skipped :
    checkSubdir "A" "B" "C" [] "/lib"
      ⟨"A - B", some (IniRead.fields (some "B") (some "A") (some "C"))⟩ = true ∧
    find_duplicates_of_sng_in_library "/lib/A - B (C).sng"
      [⟨"/lib", [⟨"A - B", some (IniRead.fields (some "B") (some "A") (some "C"))⟩],
        ["A - B (C).sng"]⟩] [] = false := by
  decide

/-- C4, amended: when any file of a walked directory resolves to the batch
file's own absolute path, that entire directory entry — its exact-name check
and all of its subdirectory candidates — contributes nothing to the
decision; entries of other directories are examined as usual. -/
theorem self_dir_entry_dropped (p : String) (e : WalkEntry)
    (ws : List WalkEntry) (cv : List (String × String))
    (h : e.files.any (fun f => pjoin e.root f == p) = true) :
    find_duplicates_of_sng_in_library p (e :: ws) cv =
      find_duplicates_of_sng_in_library p ws cv := by
  cases hp : parseSngName (basename p) with
  | none => simp [find_duplicates_of_sng_in_library, hp]
  | some k =>
    obtain ⟨a, n, c⟩ := k
    simp [find_duplicates_of_sng_in_library, hp, walkEntryHit, h]

theorem self_dir_entry_dropped_witness :
    ((⟨"/lib", [⟨"A - B", some (IniRead.fields (some "B") (some "A") (some "C"))⟩],
        ["A - B (C).sng"]⟩ : WalkEntry).files.any
      (fun f => pjoin "/lib" f == "/lib/A - B (C).sng") = true) ∧
    find_duplicates_of_sng_in_library "/lib/A - B (C).sng"
      [⟨"/lib", [⟨"A - B", some (IniRead.fields (some "B") (some "A") (some "C"))⟩],
        ["A - B (C).sng"]⟩, ⟨"/lib2", [], ["A - B (C).sng"]⟩] [] =
      find_duplicates_of_sng_in_library "/lib/A - B (C).sng"
        [⟨"/lib2", [], ["A - B (C).sng"]⟩] [] :=
  ⟨by decide, self_dir_entry_dropped _ _ _ _ (by decide)⟩

/-- C2, counterexample: a folder candidate for `A - B (C).sng` whose
`song.ini` is absent (and likewise one whose fields are all absent) is
passed over without fallback verification: the fallback rule would confirm
it (first conjunct), yet the checker returns false in both situations. -/
theorem fallback_not_invoked_on_missing_ini :
    fallbackVerify "C" [("C", "/lib")] (pjoin "/lib" "A - B") "A - B" = true ∧
    find_duplicates_of_sng_in_library "/batch/A - B (C).sng"
      [⟨"/lib", [⟨"A - B", none⟩], []⟩] [("C", "/lib")] = false ∧
    find_duplicates_of_sng_in_library "/batch/A - B (C).sng"
      [⟨"/lib", [⟨"A - B", some (IniRead.fields none none none)⟩], []⟩]
      [("C", "/lib")] = false := by
  decide

/-- C2, amended: fallback verification runs for a folder candidate exactly
when reading its metadata raised; a candidate whose `song.ini` is absent is
skipped outright (no metadata check, no fallback), and a readable file whose
fields are absent only fails the metadata comparison, again without
fallback. -/
theorem fallback_only_on_read_error (p artist name charter root dname : String)
    (cv : List (String × String))
    (hp : parseSngName (basename p) = some (artist, name, charter)) :
    find_duplicates_of_sng_in_library p [⟨root, [⟨dname, none⟩], []⟩] cv = false ∧
    find_duplicates_of_sng_in_library p [⟨root, [⟨dname, some IniRead.err⟩], []⟩] cv =
      (strContains (pyLower dname) (pyLower (artist ++ " - " ++ name)) &&
        fallbackVerify charter cv (pjoin root dname) dname) := by
  constructor
  · simp [find_duplicates_of_sng_in_library, hp, walkEntryHit, checkSubdir]
  · simp only [find_duplicates_of_sng_in_library, hp]
    cases hg : strContains (pyLower dname) (pyLower (artist ++ " - " ++ name)) <;>
      simp [walkEntryHit, checkSubdir, hg]

theorem fallback_only_on_read_error_witness :
    parseSngName (basename "/batch/A - B (C).sng") = some ("A", "B", "C") ∧
    (find_duplicates_of_sng_in_library "/batch/A - B (C).sng"
        [⟨"/lib", [⟨"A - B", none⟩], []⟩] [("C", "/lib")] = false ∧
      find_duplicates_of_sng_in_library "/batch/A - B (C).sng"
        [⟨"/lib", [⟨"A - B", some IniRead.err⟩], []⟩] [("C", "/lib")] =
        (strContains (pyLower "A - B") (pyLower ("A" ++ " - " ++ "B")) &&
          fallbackVerify "C" [("C", "/lib")] (pjoin "/lib" "A - B") "A - B")) :=
  ⟨by decide, fallback_only_on_read_error _ _ _ _ _ _ _ (by decide)⟩

/-- The metadata comparison succeeds exactly when the spec's conditions hold:
all three fields present, name/artist equal case-insensitively, charter a
case-insensitive substring of the metadata charter.  Python's truthiness
test on the fields is equivalent to presence here because the key's parts
are nonempty, so an empty field could not satisfy the comparisons anyway. -/
theorem iniFieldsMatch_iff (artist name charter : String) (n a c : Option String)
    (ha : artist ≠ "") (hn : name ≠ "") (hc : charter ≠ "") :
    (iniFieldsMatch artist name charter n a c = true ↔
      (∃ ns as2 cs, n = some ns ∧ a = some as2 ∧ c = some cs ∧
        pyLower ns = pyLower name ∧ pyLower as2 = pyLower artist ∧
        strContains (pyLower cs) (pyLower charter) = true)) := by
  constructor
  · intro h
    cases n with
    | none => simp [iniFieldsMatch] at h
    | some ns =>
      cases a with
      | none => simp [iniFieldsMatch] at h
      | some as2 =>
        cases c with
        | none => simp [iniFieldsMatch] at h
        | some cs =>
          simp [iniFieldsMatch] at h
          refine ⟨ns, as2, cs, rfl, rfl, rfl, ?_, ?_, ?_⟩ <;> tauto
  · rintro ⟨ns, as2, cs, rfl, rfl, rfl, h1, h2, h3⟩
    have hns : ns ≠ "" := by
      intro he
      subst he
      have h4 : pyLower name = "" := by
        rw [← h1]
        decide
      exact hn ((pyLower_eq_empty_iff name).mp h4)
    have has2 : as2 ≠ "" := by
      intro he
      subst he
      have h4 : pyLower artist = "" := by
        rw [← h2]
        decide
      exact ha ((pyLower_eq_empty_iff artist).mp h4)
    have hcs : cs ≠ "" := by
      intro he
      subst he
      have h4 : strContains "" (pyLower charter) = true := by
        have h5 : pyLower "" = "" := by decide
        rw [h5] at h3
        exact h3
      exact hc ((pyLower_eq_empty_iff charter).mp (strContains_empty_hay _ h4))
    simp [iniFieldsMatch, hns, has2, hcs, h1, h2, h3]

/-- C5: for a name-similar folder candidate whose metadata was read
successfully, the checker confirms it exactly when all three fields are
present, the metadata name and artist equal the key's title and artist
case-insensitively, and the key's charter is a case-insensitive substring of
the metadata charter. -/
theorem metadata_match_iff (p artist name charter root dname : String)
    (n a c : Option String) (cv : List (String × String))
    (hp : parseSngName (basename p) = some (artist, name, charter))
    (hgate : strContains (pyLower dname) (pyLower (artist ++ " - " ++ name)) = true) :
    (find_duplicates_of_sng_in_library p
        [⟨root, [⟨dname, some (IniRead.fields n a c)⟩], []⟩] cv = true ↔
      (∃ ns as2 cs, n = some ns ∧ a = some as2 ∧ c = some cs ∧
        pyLower ns = pyLower name ∧ pyLower as2 = pyLower artist ∧
        strContains (pyLower cs) (pyLower charter) = true)) := by
  obtain ⟨ha, hn, hc⟩ := parseSngName_parts_ne _ _ _ _ hp
  rw [← iniFieldsMatch_iff artist name charter n a c ha hn hc]
  simp [find_duplicates_of_sng_in_library, hp, walkEntryHit, checkSubdir, hgate]

theorem metadata_match_iff_witness :
    parseSngName (basename "/b/A - B (C).sng") = some ("A", "B", "C") ∧
    strContains (pyLower "A - B") (pyLower ("A" ++ " - " ++ "B")) = true ∧
    (find_duplicates_of_sng_in_library "/b/A - B (C).sng"
        [⟨"/lib", [⟨"A - B",
          some (IniRead.fields (some "b") (some "a") (some "xCy"))⟩], []⟩] [] = true ↔
      (∃ ns as2 cs, (some "b" : Option String) = some ns ∧
        (some "a" : Option String) = some as2 ∧
        (some "xCy" : Option String) = some cs ∧
        pyLower ns = pyLower "B" ∧ pyLower as2 = pyLower "A" ∧
        strContains (pyLower cs) (pyLower "C") = true)) :=
  ⟨by decide, by decide,
    metadata_match_iff "/b/A - B (C).sng" "A" "B" "C" "/lib" "A - B"
      (some "b") (some "a") (some "xCy") [] (by decide) (by decide)⟩

/-- C6: for a name-similar folder candidate whose metadata read raised, the
fallback confirms exactly when the charter's verification rule defines a
nonempty hint occurring in the candidate folder's path, or the literal
charter string occurs in the directory name; otherwise the candidate is not
confirmed and no error is raised. -/
theorem fallback_verifier_iff (p artist name charter root dname : String)
    (cv : List (String × String))
    (hp : parseSngName (basename p) = some (artist, name, charter))
    (hgate : strContains (pyLower dname) (pyLower (artist ++ " - " ++ name)) = true) :
    (find_duplicates_of_sng_in_library p
        [⟨root, [⟨dname, some IniRead.err⟩], []⟩] cv = true ↔
      ((lookupHint cv charter ≠ "" ∧
          strContains (pjoin root dname) (lookupHint cv charter) = true) ∨
        strContains dname charter = true)) := by
  simp only [find_duplicates_of_sng_in_library, hp]
  simp [walkEntryHit, checkSubdir, hgate, fallbackVerify]

theorem fallback_verifier_iff_witness :
    parseSngName (basename "/batch/A - B (C).sng") = some ("A", "B", "C") ∧
    strContains (pyLower "xA - By") (pyLower ("A" ++ " - " ++ "B")) = true ∧
    (find_duplicates_of_sng_in_library "/batch/A - B (C).sng"
        [⟨"/lib", [⟨"xA - By", some IniRead.err⟩], []⟩] [("D", "zzz")] = true ↔
      ((lookupHint [("D", "zzz")] "C" ≠ "" ∧
          strContains (pjoin "/lib" "xA - By") (lookupHint [("D", "zzz")] "C") = true) ∨
        strContains "xA - By" "C" = true)) :=
  ⟨by decide, by decide,
    fallback_verifier_iff "/batch/A - B (C).sng" "A" "B" "C" "/lib" "xA - By"
      [("D", "zzz")] (by decide) (by decide)⟩

theorem libdup_beq_batch : (RemKind.libdup == RemKind.batch) = false := by decide

theorem batch_beq_batch : (RemKind.batch == RemKind.batch) = true := by decide

/-- The two run modes take the same branches and build the same `files_dict`;
`dry_run` only suppresses the removals of the library-duplicate branch. -/
theorem removeDupGo_dry_run (d : String) (walks : List WalkEntry)
    (cv : List (String × String)) :
    ∀ (listing : List (String × Nat)) (dict : List (String × String × Nat)),
      removeDupGo d walks cv true listing dict =
        ⟨(removeDupGo d walks cv false listing dict).removed.filter
            (fun r => r.2 == RemKind.batch),
          (removeDupGo d walks cv false listing dict).kept⟩ := by
  intro listing
  induction listing with
  | nil => intro dict; rfl
  | cons e rest ih =>
    obtain ⟨filename, size⟩ := e
    intro dict
    by_cases h1 : endsSng filename = true
    · by_cases h2 : find_duplicates_of_sng_in_library (pjoin d filename) walks cv = true
      · simp [removeDupGo, h1, h2, ih, libdup_beq_batch]
      · rw [Bool.not_eq_true] at h2
        cases h3 : dictFind dict (subSuffix filename) with
        | none => simp [removeDupGo, h1, h2, h3, ih]
        | some pr =>
          obtain ⟨epath, esize⟩ := pr
          by_cases h4 : size > esize
          · simp [removeDupGo, h1, h2, h3, h4, ih, batch_beq_batch]
          · by_cases h5 : size = esize
            · by_cases h6 : hasCounter filename = true
              · simp [removeDupGo, h1, h2, h3, h4, h5, h6, ih, batch_beq_batch]
              · rw [Bool.not_eq_true] at h6
                simp [removeDupGo, h1, h2, h3, h4, h5, h6, ih, batch_beq_batch]
            · simp [removeDupGo, h1, h2, h3, h4, h5, ih, batch_beq_batch]
    · rw [Bool.not_eq_true] at h1
      simp [removeDupGo, h1, ih]

/-- C10: with `dry_run` set, the removals are exactly the intra-batch
removals of the real run (library-duplicate removals are suppressed, losers
of the tie-break are still deleted), and the resulting `files_dict` is
unchanged: `dry_run` guards only the library-duplicate branch. -/
theorem dry_run_guards_only_libdup (d : String) (listing : List (String × Nat))
    (walks : List WalkEntry) (cv : List (String × String)) :
    remove_duplicates d listing walks cv true =
      ⟨(remove_duplicates d listing walks cv false).removed.filter
          (fun r => r.2 == RemKind.batch),
        (remove_duplicates d listing walks cv false).kept⟩ :=
  removeDupGo_dry_run d walks cv listing []

/-- Any path removed by the library-duplicate branch was in fact judged a
duplicate by the checker. -/
theorem removed_libdup_checker (d : String) (walks : List WalkEntry)
    (cv : List (String × String)) (dry : Bool) (q : String) :
    ∀ (listing : List (String × Nat)) (dict : List (String × String × Nat)),
      (q, RemKind.libdup) ∈ (removeDupGo d walks cv dry listing dict).removed →
      find_duplicates_of_sng_in_library q walks cv = true := by
  intro listing
  induction listing with
  | nil => intro dict h; simp [removeDupGo] at h
  | cons e rest ih =>
    obtain ⟨filename, size⟩ := e
    intro dict h
    by_cases h1 : endsSng filename = true
    · by_cases h2 : find_duplicates_of_sng_in_library (pjoin d filename) walks cv = true
      · cases hd : dry with
        | true =>
          subst hd
          simp [removeDupGo, h1, h2] at h
          exact ih _ h
        | false =>
          subst hd
          simp [removeDupGo, h1, h2] at h
          rcases h with h | h
          · subst h
            exact h2
          · exact ih _ h
      · rw [Bool.not_eq_true] at h2
        cases h3 : dictFind dict (subSuffix filename) with
        | none =>
          simp [removeDupGo, h1, h2, h3] at h
          exact ih _ h
        | some pr =>
          obtain ⟨epath, esize⟩ := pr
          by_cases h4 : size > esize
          · simp [removeDupGo, h1, h2, h3, h4] at h
            exact ih _ h
          · by_cases h5 : size = esize
            · by_cases h6 : hasCounter filename = true
              · simp [removeDupGo, h1, h2, h3, h4, h5, h6] at h
                exact ih _ h
              · rw [Bool.not_eq_true] at h6
                simp [removeDupGo, h1, h2, h3, h4, h5, h6] at h
                exact ih _ h
            · simp [removeDupGo, h1, h2, h3, h4, h5] at h
              exact ih _ h
    · rw [Bool.not_eq_true] at h1
      simp [removeDupGo, h1] at h
      exact ih _ h

/-- C3, counterexample: `foo.sng` and `foo (1).sng` both fail the filename
grammar (first two conjuncts), yet running the resolver over a batch holding
both deletes `foo (1).sng` through the intra-batch comparison branch — an
unparseable file is removed by the engine. -/
theorem unparseable_file_removed_in_batch :
    parseSngName "foo (1).sng" = none ∧
    parseSngName "foo.sng" = none ∧
    (remove_duplicates "/dl" [("foo.sng", 100), ("foo (1).sng", 50)] [] [] false).removed =
      [("/dl/foo (1).sng", RemKind.batch)] := by
  decide

/-- C3, amended: a batch file whose name does not match the grammar is never
removed as a library duplicate (the checker returns false for it, so the
library branch cannot fire on its path), but it may still be removed as a
loser of intra-batch resolution when another `.sng` file shares its
normalized name. -/
theorem unparseable_never_removed_as_libdup (d q : String)
    (listing : List (String × Nat)) (walks : List WalkEntry)
    (cv : List (String × String)) (dry : Bool)
    (h : parseSngName (basename q) = none) :
    (q, RemKind.libdup) ∉ (remove_duplicates d listing walks cv dry).removed := by
  intro hmem
  have h2 := removed_libdup_checker d walks cv dry q listing [] hmem
  simp [find_duplicates_of_sng_in_library, h] at h2

theorem consRemoved_eq_error (p : String × RemKind)
    (X : Except String BatchResult) (q : String) :
    consRemoved p X = Except.error q ↔ X = Except.error q := by
  cases X <;> simp [consRemoved]

/-- An error outcome of a prefix of the listing persists whatever entries
follow: the loop stops at the first failing removal. -/
theorem removal_error_persists_go (d : String) (walks : List WalkEntry)
    (cv : List (String × String)) (dry : Bool) (removeOk : String → Bool)
    (q : String) :
    ∀ (l1 : List (String × Nat)) (dict : List (String × String × Nat))
      (l2 : List (String × Nat)),
      removeDupExc d walks cv dry removeOk l1 dict = Except.error q →
      removeDupExc d walks cv dry removeOk (l1 ++ l2) dict = Except.error q := by
  intro l1
  induction l1 with
  | nil => intro dict l2 h; simp [removeDupExc] at h
  | cons e rest ih =>
    obtain ⟨filename, size⟩ := e
    intro dict l2 h
    rw [List.cons_append]
    by_cases h1 : endsSng filename = true
    · by_cases h2 : find_duplicates_of_sng_in_library (pjoin d filename) walks cv = true
      · cases hd : dry with
        | true =>
          subst hd
          simp only [removeDupExc, h1, h2, if_true] at h ⊢
          exact ih _ _ h
        | false =>
          subst hd
          by_cases h7 : removeOk (pjoin d filename) = true
          · simp [removeDupExc, h1, h2, h7, consRemoved_eq_error] at h ⊢
            exact ih _ _ h
          · rw [Bool.not_eq_true] at h7
            simp [removeDupExc, h1, h2, h7] at h ⊢
            exact h
      · rw [Bool.not_eq_true] at h2
        cases h3 : dictFind dict (subSuffix filename) with
        | none =>
          simp [removeDupExc, h1, h2, h3] at h ⊢
          exact ih _ _ h
        | some pr =>
          obtain ⟨epath, esize⟩ := pr
          by_cases h4 : size > esize
          · by_cases h7 : removeOk epath = true
            · simp [removeDupExc, h1, h2, h3, h4, h7, consRemoved_eq_error] at h ⊢
              exact ih _ _ h
            · rw [Bool.not_eq_true] at h7
              simp [removeDupExc, h1, h2, h3, h4, h7] at h ⊢
              exact h
          · by_cases h5 : size = esize
            · subst h5
              by_cases h6 : hasCounter filename = true
              · by_cases h7 : removeOk (pjoin d filename) = true
                · simp [removeDupExc, h1, h2, h3, h6, h7, consRemoved_eq_error] at h ⊢
                  exact ih _ _ h
                · rw [Bool.not_eq_true] at h7
                  simp [removeDupExc, h1, h2, h3, h6, h7] at h ⊢
                  exact h
              · rw [Bool.not_eq_true] at h6
                by_cases h7 : removeOk epath = true
                · simp [removeDupExc, h1, h2, h3, h6, h7, consRemoved_eq_error] at h ⊢
                  exact ih _ _ h
                · rw [Bool.not_eq_true] at h7
                  simp [removeDupExc, h1, h2, h3, h6, h7] at h ⊢
                  exact h
            · by_cases h7 : removeOk (pjoin d filename) = true
              · simp [removeDupExc, h1, h2, h3, h4, h5, h7, consRemoved_eq_error] at h ⊢
                exact ih _ _ h
              · rw [Bool.not_eq_true] at h7
                simp [removeDupExc, h1, h2, h3, h4, h5, h7] at h ⊢
                exact h
    · rw [Bool.not_eq_true] at h1
      simp [removeDupExc, h1] at h ⊢
      exact ih _ _ h

/-- C7, counterexample: with the batch `foo.sng`, `foo (1).sng`, `bar.sng`
and a filesystem on which removing `/dl/foo (1).sng` fails, the run aborts
with that error (first conjunct), so `bar.sng` is never processed — whereas
with removals succeeding the run completes and `bar.sng` is retained in the
`files_dict` (second conjunct). -/
theorem removal_failure_aborts_run :
    remove_duplicates_exc "/dl" [("foo.sng", 100), ("foo (1).sng", 50), ("bar.sng", 10)]
        [] [] false (fun p => p != "/dl/foo (1).sng") =
      Except.error "/dl/foo (1).sng" ∧
    remove_duplicates_exc "/dl" [("foo.sng", 100), ("foo (1).sng", 50), ("bar.sng", 10)]
        [] [] false (fun _ => true) =
      Except.ok ⟨[("/dl/foo (1).sng", RemKind.batch)],
        [("foo.sng", "/dl/foo.sng", 100), ("bar.sng", "/dl/bar.sng", 10)]⟩ := by
  constructor
  · rfl
  · rfl

/-- C7, amended: a filesystem failure during a removal is fatal for the whole
run, not just for that file: the error propagates out of `remove_duplicates`
and the remaining batch entries are not processed, so extending a failing
listing with any further entries yields the very same error. -/
theorem removal_error_persists (d : String) (walks : List WalkEntry)
    (cv : List (String × String)) (dry : Bool) (removeOk : String → Bool)
    (q : String) (l1 l2 : List (String × Nat))
    (h : remove_duplicates_exc d l1 walks cv dry removeOk = Except.error q) :
    remove_duplicates_exc d (l1 ++ l2) walks cv dry removeOk = Except.error q :=
  removal_error_persists_go d walks cv dry removeOk q l1 [] l2 h

theorem removal_error_persists_witness :
    remove_duplicates_exc "/dl" [("foo.sng", 100), ("foo (1).sng", 50)] [] [] false
        (fun p => p != "/dl/foo (1).sng") = Except.error "/dl/foo (1).sng" ∧
    remove_duplicates_exc "/dl"
        ([("foo.sng", 100), ("foo (1).sng", 50)] ++ [("bar.sng", 10)]) [] [] false
        (fun p => p != "/dl/foo (1).sng") = Except.error "/dl/foo (1).sng" :=
  ⟨by rfl,
    removal_error_persists "/dl" [] [] false (fun p => p != "/dl/foo (1).sng")
      "/dl/foo (1).sng" [("foo.sng", 100), ("foo (1).sng", 50)] [("bar.sng", 10)]
      (by rfl)⟩

theorem pjoin_inj (d f g : String) (h : pjoin d f = pjoin d g) : f = g := by
  unfold pjoin at h
  have h2 : (d ++ "/").data ++ f.data = (d ++ "/").data ++ g.data :=
    congrArg String.data h
  exact String.ext (List.append_cancel_left h2)

theorem dictFind_single (k : String) (v : String × Nat) :
    dictFind [(k, v)] k = some v := by
  simp [dictFind]

theorem dictSet_single (k : String) (v w : String × Nat) :
    dictSet [(k, v)] k w = [(k, w)] := by
  simp [dictSet]

theorem removedPaths_cons (x : String × RemKind) (r : BatchResult) :
    removedPaths ⟨x :: r.removed, r.kept⟩ = x.1 :: removedPaths r := rfl

theorem kept_mk (rem : List (String × RemKind))
    (kp : List (String × String × Nat)) : (BatchResult.mk rem kp).kept = kp := rfl

/-- In a listing with distinct filenames, an entry is determined by its
name. -/
theorem mem_name_unique (L : List (String × Nat))
    (hnd : (L.map Prod.fst).Nodup) (f : String) (t t2 : Nat)
    (h1 : (f, t) ∈ L) (h2 : (f, t2) ∈ L) : t = t2 := by
  induction L with
  | nil => cases h1
  | cons a L ih =>
    rw [List.map_cons, List.nodup_cons] at hnd
    rcases List.mem_cons.mp h1 with h1 | h1 <;> rcases List.mem_cons.mp h2 with h2 | h2
    · rw [← h1] at h2
      exact ((Prod.ext_iff.mp h2).2).symm
    · have hfa : a.1 = f := by rw [← h1]
      refine absurd ?_ hnd.1
      rw [hfa]
      exact List.mem_map_of_mem Prod.fst h2
    · have hfa : a.1 = f := by rw [← h2]
      refine absurd ?_ hnd.1
      rw [hfa]
      exact List.mem_map_of_mem Prod.fst h1
    · exact ih hnd.2 h1 h2

/-- A filter whose predicate holds exactly at one element of a duplicate-free
list returns that element alone. -/
theorem filter_eq_single {α : Type} (p : α → Bool) (L : List α) (w : α)
    (hnd : L.Nodup) (hw : w ∈ L) (hp : ∀ x ∈ L, (p x = true ↔ x = w)) :
    L.filter p = [w] := by
  induction L with
  | nil => cases hw
  | cons a L ih =>
    rw [List.nodup_cons] at hnd
    rcases List.mem_cons.mp hw with hw1 | hw1
    · subst hw1
      have hpa : p w = true := (hp w (List.mem_cons_self w L)).mpr rfl
      have hrest : L.filter p = [] := by
        apply List.filter_eq_nil_iff.mpr
        intro x hx hpx
        have hxw := (hp x (List.mem_cons_of_mem w hx)).mp hpx
        subst hxw
        exact hnd.1 hx
      simp [List.filter_cons, hpa, hrest]
    · have hne : a ≠ w := fun he => hnd.1 (he ▸ hw1)
      have hpa : ¬ p a = true := fun hb =>
        hne ((hp a (List.mem_cons_self a L)).mp hb)
      simp only [List.filter_cons, hpa, if_false]
      exact ih hnd.2 hw1 (fun x hx => hp x (List.mem_cons_of_mem a hx))

/-- The streaming "current best" invariant of the intra-batch branch: over a
group of well-formed entries sharing normalized name `b`, none judged a
library duplicate, the run keeps exactly one dictionary entry, the winner's
path is never removed, every other entry's path is removed, the winner has
maximal size, and a suffix-free entry of maximal size forces a suffix-free
winner. -/
theorem batchBestGo (d b : String) (walks : List WalkEntry)
    (cv : List (String × String)) :
    ∀ (l : List (String × Nat)) (g : String) (s : Nat),
      (endsSng g = true ∧ subSuffix g = b ∧
        find_duplicates_of_sng_in_library (pjoin d g) walks cv = false) →
      (∀ f t, (f, t) ∈ l → endsSng f = true ∧ subSuffix f = b ∧
        find_duplicates_of_sng_in_library (pjoin d f) walks cv = false) →
      ((g :: l.map Prod.fst).Nodup) →
      ∃ w : String × Nat, w ∈ (g, s) :: l ∧
        (removeDupGo d walks cv false l [(b, (pjoin d g, s))]).kept =
          [(b, (pjoin d w.1, w.2))] ∧
        pjoin d w.1 ∉
          removedPaths (removeDupGo d walks cv false l [(b, (pjoin d g, s))]) ∧
        (∀ f t, (f, t) ∈ (g, s) :: l → f ≠ w.1 →
          pjoin d f ∈
            removedPaths (removeDupGo d walks cv false l [(b, (pjoin d g, s))])) ∧
        (∀ f t, (f, t) ∈ (g, s) :: l → t ≤ w.2) ∧
        ((∃ f t, (f, t) ∈ (g, s) :: l ∧ hasCounter f = false ∧ t = w.2) →
          hasCounter w.1 = false) := by
  intro l
  induction l with
  | nil =>
    intro g s hg hl hnd
    refine ⟨(g, s), List.mem_cons_self _ _, rfl, ?_, ?_, ?_, ?_⟩
    · simp [removeDupGo, removedPaths]
    · intro f t hf hne
      simp only [List.mem_cons, List.not_mem_nil, or_false] at hf
      have h1 : f = g := (Prod.ext_iff.mp hf).1
      exact absurd h1 hne
    · intro f t hf
      simp only [List.mem_cons, List.not_mem_nil, or_false] at hf
      have h2 : t = s := (Prod.ext_iff.mp hf).2
      exact Nat.le_of_eq h2
    · rintro ⟨f, t, hf, hc, ht⟩
      simp only [List.mem_cons, List.not_mem_nil, or_false] at hf
      have h1 : f = g := (Prod.ext_iff.mp hf).1
      exact h1 ▸ hc
  | cons e rest ih =>
    obtain ⟨f, t⟩ := e
    intro g s hg hl hnd
    obtain ⟨hf1, hf2, hf3⟩ := hl f t (List.mem_cons_self _ _)
    simp only [List.map_cons, List.nodup_cons, List.mem_cons, not_or] at hnd
    obtain ⟨⟨hgf, hgm⟩, hfm, hndr⟩ := hnd
    have hl2 : ∀ f2 t2, (f2, t2) ∈ rest → endsSng f2 = true ∧ subSuffix f2 = b ∧
        find_duplicates_of_sng_in_library (pjoin d f2) walks cv = false :=
      fun f2 t2 h2 => hl f2 t2 (List.mem_cons_of_mem _ h2)
    rcases Nat.lt_trichotomy t s with hlt | heq | hgt
    · -- strictly smaller: the new entry is removed, best unchanged
      have hngt : ¬ t > s := by omega
      have hne : ¬ t = s := by omega
      have hr : removeDupGo d walks cv false ((f, t) :: rest) [(b, (pjoin d g, s))] =
          ⟨(pjoin d f, RemKind.batch) ::
              (removeDupGo d walks cv false rest [(b, (pjoin d g, s))]).removed,
            (removeDupGo d walks cv false rest [(b, (pjoin d g, s))]).kept⟩ := by
        simp [removeDupGo, hf1, hf3, hf2, dictFind_single, hngt, hne]
      obtain ⟨w, hw1, hw2, hw3, hw4, hw5, hw6⟩ :=
        ih g s hg hl2 (List.nodup_cons.mpr ⟨hgm, hndr⟩)
      have hw1f : w.1 ≠ f := by
        intro he
        have hm : w.1 ∈ ((g, s) :: rest).map Prod.fst :=
          List.mem_map_of_mem Prod.fst hw1
        rw [he] at hm
        simp only [List.map_cons, List.mem_cons] at hm
        rcases hm with hm | hm
        · exact hgf hm.symm
        · exact hfm hm
      rw [hr]
      simp only [removedPaths_cons, kept_mk]
      refine ⟨w, ?_, hw2, ?_, ?_, ?_, ?_⟩
      · rcases List.mem_cons.mp hw1 with h | h
        · exact h ▸ List.mem_cons_self _ _
        · exact List.mem_cons_of_mem _ (List.mem_cons_of_mem _ h)
      · intro hmem
        rcases List.mem_cons.mp hmem with h | h
        · exact hw1f (pjoin_inj d _ _ h)
        · exact hw3 h
      · intro f2 t2 hmem hne2
        rcases List.mem_cons.mp hmem with h | h
        · exact List.mem_cons_of_mem _
            (hw4 f2 t2 (h ▸ List.mem_cons_self _ _) hne2)
        · rcases List.mem_cons.mp h with h | h
          · have h1 : f2 = f := (Prod.ext_iff.mp h).1
            rw [h1]
            exact List.mem_cons_self _ _
          · exact List.mem_cons_of_mem _
              (hw4 f2 t2 (List.mem_cons_of_mem _ h) hne2)
      · intro f2 t2 hmem
        rcases List.mem_cons.mp hmem with h | h
        · exact hw5 f2 t2 (h ▸ List.mem_cons_self _ _)
        · rcases List.mem_cons.mp h with h | h
          · have h2 : t2 = t := (Prod.ext_iff.mp h).2
            have h3 : s ≤ w.2 := hw5 g s (List.mem_cons_self _ _)
            omega
          · exact hw5 f2 t2 (List.mem_cons_of_mem _ h)
      · rintro ⟨f2, t2, hmem, hc2, ht2⟩
        rcases List.mem_cons.mp hmem with h | h
        · exact hw6 ⟨f2, t2, h ▸ List.mem_cons_self _ _, hc2, ht2⟩
        · rcases List.mem_cons.mp h with h | h
          · exfalso
            have h2 : t2 = t := (Prod.ext_iff.mp h).2
            have h3 : s ≤ w.2 := hw5 g s (List.mem_cons_self _ _)
            omega
          · exact hw6 ⟨f2, t2, List.mem_cons_of_mem _ h, hc2, ht2⟩
    · -- equal sizes: the suffix decides
      subst heq
      by_cases h6 : hasCounter f = true
      · -- the new entry carries a counter: it is removed, best unchanged
        have hr : removeDupGo d walks cv false ((f, t) :: rest) [(b, (pjoin d g, t))] =
            ⟨(pjoin d f, RemKind.batch) ::
                (removeDupGo d walks cv false rest [(b, (pjoin d g, t))]).removed,
              (removeDupGo d walks cv false rest [(b, (pjoin d g, t))]).kept⟩ := by
          simp [removeDupGo, hf1, hf3, hf2, dictFind_single, h6]
        obtain ⟨w, hw1, hw2, hw3, hw4, hw5, hw6⟩ :=
          ih g t hg hl2 (List.nodup_cons.mpr ⟨hgm, hndr⟩)
        have hw1f : w.1 ≠ f := by
          intro he
          have hm : w.1 ∈ ((g, t) :: rest).map Prod.fst :=
            List.mem_map_of_mem Prod.fst hw1
          rw [he] at hm
          simp only [List.map_cons, List.mem_cons] at hm
          rcases hm with hm | hm
          · exact hgf hm.symm
          · exact hfm hm
        rw [hr]
        simp only [removedPaths_cons, kept_mk]
        refine ⟨w, ?_, hw2, ?_, ?_, ?_, ?_⟩
        · rcases List.mem_cons.mp hw1 with h | h
          · exact h ▸ List.mem_cons_self _ _
          · exact List.mem_cons_of_mem _ (List.mem_cons_of_mem _ h)
        · intro hmem
          rcases List.mem_cons.mp hmem with h | h
          · exact hw1f (pjoin_inj d _ _ h)
          · exact hw3 h
        · intro f2 t2 hmem hne2
          rcases List.mem_cons.mp hmem with h | h
          · exact List.mem_cons_of_mem _
              (hw4 f2 t2 (h ▸ List.mem_cons_self _ _) hne2)
          · rcases List.mem_cons.mp h with h | h
            · have h1 : f2 = f := (Prod.ext_iff.mp h).1
              rw [h1]
              exact List.mem_cons_self _ _
            · exact List.mem_cons_of_mem _
                (hw4 f2 t2 (List.mem_cons_of_mem _ h) hne2)
        · intro f2 t2 hmem
          rcases List.mem_cons.mp hmem with h | h
          · exact hw5 f2 t2 (h ▸ List.mem_cons_self _ _)
          · rcases List.mem_cons.mp h with h | h
            · have h2 : t2 = t := (Prod.ext_iff.mp h).2
              have h3 : t ≤ w.2 := hw5 g t (List.mem_cons_self _ _)
              omega
            · exact hw5 f2 t2 (List.mem_cons_of_mem _ h)
        · rintro ⟨f2, t2, hmem, hc2, ht2⟩
          rcases List.mem_cons.mp hmem with h | h
          · exact hw6 ⟨f2, t2, h ▸ List.mem_cons_self _ _, hc2, ht2⟩
          · rcases List.mem_cons.mp h with h | h
            · exfalso
              have h1 : f2 = f := (Prod.ext_iff.mp h).1
              rw [h1] at hc2
              rw [hc2] at h6
              cases h6
            · exact hw6 ⟨f2, t2, List.mem_cons_of_mem _ h, hc2, ht2⟩
      · -- the new entry is suffix-free: it evicts the current best
        rw [Bool.not_eq_true] at h6
        have hr : removeDupGo d walks cv false ((f, t) :: rest) [(b, (pjoin d g, t))] =
            ⟨(pjoin d g, RemKind.batch) ::
                (removeDupGo d walks cv false rest [(b, (pjoin d f, t))]).removed,
              (removeDupGo d walks cv false rest [(b, (pjoin d f, t))]).kept⟩ := by
          simp [removeDupGo, hf1, hf3, hf2, dictFind_single, dictSet_single, h6]
        obtain ⟨w, hw1, hw2, hw3, hw4, hw5, hw6⟩ :=
          ih f t ⟨hf1, hf2, hf3⟩ hl2 (List.nodup_cons.mpr ⟨hfm, hndr⟩)
        have hw1g : w.1 ≠ g := by
          intro he
          have hm : w.1 ∈ ((f, t) :: rest).map Prod.fst :=
            List.mem_map_of_mem Prod.fst hw1
          rw [he] at hm
          simp only [List.map_cons, List.mem_cons] at hm
          rcases hm with hm | hm
          · exact hgf hm
          · exact hgm hm
        rw [hr]
        simp only [removedPaths_cons, kept_mk]
        refine ⟨w, List.mem_cons_of_mem _ hw1, hw2, ?_, ?_, ?_, ?_⟩
        · intro hmem
          rcases List.mem_cons.mp hmem with h | h
          · exact hw1g (pjoin_inj d _ _ h)
          · exact hw3 h
        · intro f2 t2 hmem hne2
          rcases List.mem_cons.mp hmem with h | h
          · have h1 : f2 = g := (Prod.ext_iff.mp h).1
            rw [h1]
            exact List.mem_cons_self _ _
          · exact List.mem_cons_of_mem _ (hw4 f2 t2 h hne2)
        · intro f2 t2 hmem
          rcases List.mem_cons.mp hmem with h | h
          · have h2 : t2 = t := (Prod.ext_iff.mp h).2
            have h3 : t ≤ w.2 := hw5 f t (List.mem_cons_self _ _)
            omega
          · exact hw5 f2 t2 h
        · rintro ⟨f2, t2, hmem, hc2, ht2⟩
          rcases List.mem_cons.mp hmem with h | h
          · have h2 : t2 = t := (Prod.ext_iff.mp h).2
            exact hw6 ⟨f, t, List.mem_cons_self _ _, h6, by omega⟩
          · exact hw6 ⟨f2, t2, h, hc2, ht2⟩
    · -- strictly larger: the new entry evicts the current best
      have hr : removeDupGo d walks cv false ((f, t) :: rest) [(b, (pjoin d g, s))] =
          ⟨(pjoin d g, RemKind.batch) ::
              (removeDupGo d walks cv false rest [(b, (pjoin d f, t))]).removed,
            (removeDupGo d walks cv false rest [(b, (pjoin d f, t))]).kept⟩ := by
        simp [removeDupGo, hf1, hf3, hf2, dictFind_single, dictSet_single, hgt]
      obtain ⟨w, hw1, hw2, hw3, hw4, hw5, hw6⟩ :=
        ih f t ⟨hf1, hf2, hf3⟩ hl2 (List.nodup_cons.mpr ⟨hfm, hndr⟩)
      have hw1g : w.1 ≠ g := by
        intro he
        have hm : w.1 ∈ ((f, t) :: rest).map Prod.fst :=
          List.mem_map_of_mem Prod.fst hw1
        rw [he] at hm
        simp only [List.map_cons, List.mem_cons] at hm
        rcases hm with hm | hm
        · exact hgf hm
        · exact hgm hm
      rw [hr]
      simp only [removedPaths_cons, kept_mk]
      refine ⟨w, List.mem_cons_of_mem _ hw1, hw2, ?_, ?_, ?_, ?_⟩
      · intro hmem
        rcases List.mem_cons.mp hmem with h | h
        · exact hw1g (pjoin_inj d _ _ h)
        · exact hw3 h
      · intro f2 t2 hmem hne2
        rcases List.mem_cons.mp hmem with h | h
        · have h1 : f2 = g := (Prod.ext_iff.mp h).1
          rw [h1]
          exact List.mem_cons_self _ _
        · exact List.mem_cons_of_mem _ (hw4 f2 t2 h hne2)
      · intro f2 t2 hmem
        rcases List.mem_cons.mp hmem with h | h
        · have h2 : t2 = s := (Prod.ext_iff.mp h).2
          have h3 : t ≤ w.2 := hw5 f t (List.mem_cons_self _ _)
          omega
        · exact hw5 f2 t2 h
      · rintro ⟨f2, t2, hmem, hc2, ht2⟩
        rcases List.mem_cons.mp hmem with h | h
        · exfalso
          have h2 : t2 = s := (Prod.ext_iff.mp h).2
          have h3 : t ≤ w.2 := hw5 f t (List.mem_cons_self _ _)
          omega
        · exact hw6 ⟨f2, t2, h, hc2, ht2⟩

/-- C1: over a nonempty batch group of distinct `.sng` files sharing the
normalized name `b`, none judged a library duplicate, the resolver leaves
exactly one file of the group on disk; it has the largest size, and when a
suffix-free file of that largest size is in the group, the survivor is
suffix-free. -/
theorem batch_group_resolution (d b : String) (walks : List WalkEntry)
    (cv : List (String × String)) (e : String × Nat) (l : List (String × Nat))
    (hgood : ∀ f t, (f, t) ∈ e :: l → endsSng f = true ∧ subSuffix f = b ∧
      find_duplicates_of_sng_in_library (pjoin d f) walks cv = false)
    (hnd : ((e :: l).map Prod.fst).Nodup) :
    ∃ w : String × Nat, w ∈ e :: l ∧
      survivors d (e :: l) (remove_duplicates d (e :: l) walks cv false) = [w] ∧
      (∀ f t, (f, t) ∈ e :: l → t ≤ w.2) ∧
      ((∃ f t, (f, t) ∈ e :: l ∧ hasCounter f = false ∧ t = w.2) →
        hasCounter w.1 = false) := by
  obtain ⟨g, s⟩ := e
  obtain ⟨hg1, hg2, hg3⟩ := hgood g s (List.mem_cons_self _ _)
  have hfirst : remove_duplicates d ((g, s) :: l) walks cv false =
      removeDupGo d walks cv false l [(b, (pjoin d g, s))] := by
    simp [remove_duplicates, removeDupGo, hg1, hg3, hg2, dictFind, dictSet]
  have hnd2 : (g :: l.map Prod.fst).Nodup := by
    rw [List.map_cons] at hnd
    exact hnd
  obtain ⟨w, hw1, hw2, hw3, hw4, hw5, hw6⟩ :=
    batchBestGo d b walks cv l g s ⟨hg1, hg2, hg3⟩
      (fun f2 t2 h2 => hgood f2 t2 (List.mem_cons_of_mem _ h2)) hnd2
  refine ⟨w, hw1, ?_, hw5, hw6⟩
  unfold survivors
  rw [hfirst]
  apply filter_eq_single _ _ _ (hnd.of_map Prod.fst) hw1
  intro x hx
  obtain ⟨f2, t2⟩ := x
  constructor
  · intro hpx
    rw [Bool.not_eq_true'] at hpx
    have hnmem : pjoin d f2 ∉
        removedPaths (removeDupGo d walks cv false l [(b, (pjoin d g, s))]) := by
      simpa using hpx
    by_cases hf2w : f2 = w.1
    · have ht2w : t2 = w.2 := by
        apply mem_name_unique ((g, s) :: l) hnd f2 t2 w.2 hx
        rw [hf2w]
        simpa using hw1
      rw [Prod.ext_iff]
      exact ⟨hf2w, ht2w⟩
    · exact absurd (hw4 f2 t2 hx hf2w) hnmem
  · intro hxw
    subst hxw
    rw [Bool.not_eq_true']
    simpa using hw3

theorem batch_group_resolution_witness :
    (∀ f t, (f, t) ∈ [("A - B (C).sng", (100 : Nat)), ("A - B (C) (1).sng", 100)] →
      endsSng f = true ∧ subSuffix f = "A - B (C).sng" ∧
      find_duplicates_of_sng_in_library (pjoin "/dl" f) [] [] = false) ∧
    (([("A - B (C).sng", (100 : Nat)), ("A - B (C) (1).sng", 100)]).map Prod.fst).Nodup ∧
    (∃ w : String × Nat,
      w ∈ [("A - B (C).sng", (100 : Nat)), ("A - B (C) (1).sng", 100)] ∧
      survivors "/dl" [("A - B (C).sng", 100), ("A - B (C) (1).sng", 100)]
        (remove_duplicates "/dl" [("A - B (C).sng", 100), ("A - B (C) (1).sng", 100)]
          [] [] false) = [w] ∧
      (∀ f t, (f, t) ∈ [("A - B (C).sng", (100 : Nat)), ("A - B (C) (1).sng", 100)] →
        t ≤ w.2) ∧
      ((∃ f t, (f, t) ∈ [("A - B (C).sng", (100 : Nat)), ("A - B (C) (1).sng", 100)] ∧
        hasCounter f = false ∧ t = w.2) → hasCounter w.1 = false)) := by
  have hgood : ∀ f t,
      (f, t) ∈ [("A - B (C).sng", (100 : Nat)), ("A - B (C) (1).sng", 100)] →
      endsSng f = true ∧ subSuffix f = "A - B (C).sng" ∧
      find_duplicates_of_sng_in_library (pjoin "/dl" f) [] [] = false := by
    intro f t h
    simp only [List.mem_cons, List.not_mem_nil, or_false] at h
    rcases h with h | h <;>
      (injection h with h1 h2; subst h1; subst h2;
        exact ⟨by decide, by decide, by decide⟩)
  exact ⟨hgood, by decide,
    batch_group_resolution "/dl" "A - B (C).sng" [] []
      ("A - B (C).sng", 100) [("A - B (C) (1).sng", 100)] hgood (by decide)⟩

theorem unparseable_never_removed_as_libdup_witness :
    parseSngName (basename "/dl/foo (1).sng") = none ∧
    ("/dl/foo (1).sng", RemKind.libdup) ∉
      (remove_duplicates "/dl" [("foo.sng", 100), ("foo (1).sng", 50)]
        [⟨"/lib", [], ["foo (1).sng"]⟩] [] false).removed :=
  ⟨by decide,
    unparseable_never_removed_as_libdup "/dl" "/dl/foo (1).sng"
      [("foo.sng", 100), ("foo (1).sng", 50)] [⟨"/lib", [], ["foo (1).sng"]⟩]
      [] false (by decide)⟩

theorem dictFind_set_self (dict : List (String × String × Nat)) (k : String)
    (v : String × Nat) : dictFind (dictSet dict k v) k = some v := by
  induction dict with
  | nil => simp [dictSet, dictFind]
  | cons p rest ih =>
    by_cases h : p.1 = k
    · simp [dictSet, dictFind, h]
    · simp [dictSet, dictFind, h, ih]

theorem dictFind_set_ne (dict : List (String × String × Nat)) (k k2 : String)
    (v : String × Nat) (h : k2 ≠ k) :
    dictFind (dictSet dict k v) k2 = dictFind dict k2 := by
  have h' : k ≠ k2 := Ne.symm h
  induction dict with
  | nil => simp [dictSet, dictFind, h']
  | cons p rest ih =>
    by_cases h2 : p.1 = k
    · simp [dictSet, dictFind, h2, h, h']
    · simp [dictSet, dictFind, h2, h, h', ih]

/-- Two facts about a completed (non-dry) run, proved together: a `.sng`
entry whose path was not removed was never judged a library duplicate and
ends up in the final `files_dict` under its normalized name; and every
starting dictionary entry is either removed or retained under its key. -/
theorem removeDupGo_run_facts (d : String) (walks : List WalkEntry)
    (cv : List (String × String)) :
    ∀ (listing : List (String × Nat)) (dict : List (String × String × Nat)),
      (∀ f t, (f, t) ∈ listing → endsSng f = true →
        pjoin d f ∉ removedPaths (removeDupGo d walks cv false listing dict) →
        find_duplicates_of_sng_in_library (pjoin d f) walks cv = false ∧
        ∃ sz, dictFind (removeDupGo d walks cv false listing dict).kept
          (subSuffix f) = some (pjoin d f, sz)) ∧
      (∀ k q sz, dictFind dict k = some (q, sz) →
        q ∈ removedPaths (removeDupGo d walks cv false listing dict) ∨
        dictFind (removeDupGo d walks cv false listing dict).kept k =
          some (q, sz)) := by
  intro listing
  induction listing with
  | nil =>
    intro dict
    constructor
    · intro f t hm
      cases hm
    · intro k q sz hk
      exact Or.inr hk
  | cons e rest ih =>
    obtain ⟨f0, t0⟩ := e
    intro dict
    by_cases h1 : endsSng f0 = true
    · by_cases h2 : find_duplicates_of_sng_in_library (pjoin d f0) walks cv = true
      · have hr : removeDupGo d walks cv false ((f0, t0) :: rest) dict =
            ⟨(pjoin d f0, RemKind.libdup) ::
                (removeDupGo d walks cv false rest dict).removed,
              (removeDupGo d walks cv false rest dict).kept⟩ := by
          simp [removeDupGo, h1, h2]
        rw [hr]
        simp only [removedPaths_cons, kept_mk]
        constructor
        · intro f t hm hsng hnr
          rcases List.mem_cons.mp hm with h | h
          · exfalso
            apply hnr
            have h3 : f = f0 := (Prod.ext_iff.mp h).1
            rw [h3]
            exact List.mem_cons_self _ _
          · exact (ih dict).1 f t h hsng
              (fun hmem => hnr (List.mem_cons_of_mem _ hmem))
        · intro k q sz hk
          rcases (ih dict).2 k q sz hk with h | h
          · exact Or.inl (List.mem_cons_of_mem _ h)
          · exact Or.inr h
      · rw [Bool.not_eq_true] at h2
        cases h3 : dictFind dict (subSuffix f0) with
        | none =>
          have hr : removeDupGo d walks cv false ((f0, t0) :: rest) dict =
              removeDupGo d walks cv false rest
                (dictSet dict (subSuffix f0) (pjoin d f0, t0)) := by
            simp [removeDupGo, h1, h2, h3]
          rw [hr]
          constructor
          · intro f t hm hsng hnr
            rcases List.mem_cons.mp hm with h | h
            · have h4 : f = f0 := (Prod.ext_iff.mp h).1
              subst h4
              refine ⟨h2, ?_⟩
              have h5 := (ih (dictSet dict (subSuffix f) (pjoin d f, t0))).2
                (subSuffix f) (pjoin d f) t0 (dictFind_set_self dict _ _)
              rcases h5 with h5 | h5
              · exact absurd h5 hnr
              · exact ⟨t0, h5⟩
            · exact (ih _).1 f t h hsng hnr
          · intro k q sz hk
            have hkne : k ≠ subSuffix f0 := by
              intro he
              rw [he, h3] at hk
              cases hk
            have h4 : dictFind (dictSet dict (subSuffix f0) (pjoin d f0, t0)) k =
                some (q, sz) := by
              rw [dictFind_set_ne dict _ _ _ hkne]
              exact hk
            exact (ih _).2 k q sz h4
        | some pr =>
          obtain ⟨ep, es⟩ := pr
          rcases Nat.lt_trichotomy t0 es with hlt | heq | hgt
          · have hngt : ¬ t0 > es := by omega
            have hne : ¬ t0 = es := by omega
            have hr : removeDupGo d walks cv false ((f0, t0) :: rest) dict =
                ⟨(pjoin d f0, RemKind.batch) ::
                    (removeDupGo d walks cv false rest dict).removed,
                  (removeDupGo d walks cv false rest dict).kept⟩ := by
              simp [removeDupGo, h1, h2, h3, hngt, hne]
            rw [hr]
            simp only [removedPaths_cons, kept_mk]
            constructor
            · intro f t hm hsng hnr
              rcases List.mem_cons.mp hm with h | h
              · exfalso
                apply hnr
                have h4 : f = f0 := (Prod.ext_iff.mp h).1
                rw [h4]
                exact List.mem_cons_self _ _
              · exact (ih dict).1 f t h hsng
                  (fun hmem => hnr (List.mem_cons_of_mem _ hmem))
            · intro k q sz hk
              rcases (ih dict).2 k q sz hk with h | h
              · exact Or.inl (List.mem_cons_of_mem _ h)
              · exact Or.inr h
          · subst heq
            by_cases h6 : hasCounter f0 = true
            · have hr : removeDupGo d walks cv false ((f0, t0) :: rest) dict =
                  ⟨(pjoin d f0, RemKind.batch) ::
                      (removeDupGo d walks cv false rest dict).removed,
                    (removeDupGo d walks cv false rest dict).kept⟩ := by
                simp [removeDupGo, h1, h2, h3, h6]
              rw [hr]
              simp only [removedPaths_cons, kept_mk]
              constructor
              · intro f t hm hsng hnr
                rcases List.mem_cons.mp hm with h | h
                · exfalso
                  apply hnr
                  have h4 : f = f0 := (Prod.ext_iff.mp h).1
                  rw [h4]
                  exact List.mem_cons_self _ _
                · exact (ih dict).1 f t h hsng
                    (fun hmem => hnr (List.mem_cons_of_mem _ hmem))
              · intro k q sz hk
                rcases (ih dict).2 k q sz hk with h | h
                · exact Or.inl (List.mem_cons_of_mem _ h)
                · exact Or.inr h
            · rw [Bool.not_eq_true] at h6
              have hr : removeDupGo d walks cv false ((f0, t0) :: rest) dict =
                  ⟨(ep, RemKind.batch) ::
                      (removeDupGo d walks cv false rest
                        (dictSet dict (subSuffix f0) (pjoin d f0, t0))).removed,
                    (removeDupGo d walks cv false rest
                      (dictSet dict (subSuffix f0) (pjoin d f0, t0))).kept⟩ := by
                simp [removeDupGo, h1, h2, h3, h6]
              rw [hr]
              simp only [removedPaths_cons, kept_mk]
              constructor
              · intro f t hm hsng hnr
                rcases List.mem_cons.mp hm with h | h
                · have h4 : f = f0 := (Prod.ext_iff.mp h).1
                  subst h4
                  refine ⟨h2, ?_⟩
                  have h5 := (ih (dictSet dict (subSuffix f) (pjoin d f, t0))).2
                    (subSuffix f) (pjoin d f) t0 (dictFind_set_self dict _ _)
                  rcases h5 with h5 | h5
                  · exact absurd (List.mem_cons_of_mem _ h5) hnr
                  · exact ⟨t0, h5⟩
                · exact (ih _).1 f t h hsng
                    (fun hmem => hnr (List.mem_cons_of_mem _ hmem))
              · intro k q sz hk
                by_cases hk0 : k = subSuffix f0
                · rw [hk0, h3] at hk
                  injection hk with hk
                  have h4 : ep = q := (Prod.ext_iff.mp hk).1
                  rw [← h4]
                  exact Or.inl (List.mem_cons_self _ _)
                · have h4 : dictFind (dictSet dict (subSuffix f0) (pjoin d f0, t0)) k =
                      some (q, sz) := by
                    rw [dictFind_set_ne dict _ _ _ hk0]
                    exact hk
                  rcases (ih _).2 k q sz h4 with h | h
                  · exact Or.inl (List.mem_cons_of_mem _ h)
                  · exact Or.inr h
          · have hr : removeDupGo d walks cv false ((f0, t0) :: rest) dict =
                ⟨(ep, RemKind.batch) ::
                    (removeDupGo d walks cv false rest
                      (dictSet dict (subSuffix f0) (pjoin d f0, t0))).removed,
                  (removeDupGo d walks cv false rest
                    (dictSet dict (subSuffix f0) (pjoin d f0, t0))).kept⟩ := by
              simp [removeDupGo, h1, h2, h3, hgt]
            rw [hr]
            simp only [removedPaths_cons, kept_mk]
            constructor
            · intro f t hm hsng hnr
              rcases List.mem_cons.mp hm with h | h
              · have h4 : f = f0 := (Prod.ext_iff.mp h).1
                subst h4
                refine ⟨h2, ?_⟩
                have h5 := (ih (dictSet dict (subSuffix f) (pjoin d f, t0))).2
                  (subSuffix f) (pjoin d f) t0 (dictFind_set_self dict _ _)
                rcases h5 with h5 | h5
                · exact absurd (List.mem_cons_of_mem _ h5) hnr
                · exact ⟨t0, h5⟩
              · exact (ih _).1 f t h hsng
                  (fun hmem => hnr (List.mem_cons_of_mem _ hmem))
            · intro k q sz hk
              by_cases hk0 : k = subSuffix f0
              · rw [hk0, h3] at hk
                injection hk with hk
                have h4 : ep = q := (Prod.ext_iff.mp hk).1
                rw [← h4]
                exact Or.inl (List.mem_cons_self _ _)
              · have h4 : dictFind (dictSet dict (subSuffix f0) (pjoin d f0, t0)) k =
                    some (q, sz) := by
                  rw [dictFind_set_ne dict _ _ _ hk0]
                  exact hk
                rcases (ih _).2 k q sz h4 with h | h
                · exact Or.inl (List.mem_cons_of_mem _ h)
                · exact Or.inr h
    · rw [Bool.not_eq_true] at h1
      have hr : removeDupGo d walks cv false ((f0, t0) :: rest) dict =
          removeDupGo d walks cv false rest dict := by
        simp [removeDupGo, h1]
      rw [hr]
      constructor
      · intro f t hm hsng hnr
        rcases List.mem_cons.mp hm with h | h
        · exfalso
          have h4 : f = f0 := (Prod.ext_iff.mp h).1
          rw [h4] at hsng
          rw [hsng] at h1
          cases h1
        · exact (ih dict).1 f t h hsng hnr
      · exact (ih dict).2

/-- A run over a listing whose `.sng` entries are pairwise base-distinct,
none judged a library duplicate and none colliding with the starting
dictionary, removes nothing. -/
theorem removeDupGo_no_removals (d : String) (walks : List WalkEntry)
    (cv : List (String × String)) :
    ∀ (S : List (String × Nat)) (dict : List (String × String × Nat)),
      (∀ f t, (f, t) ∈ S → endsSng f = true →
        find_duplicates_of_sng_in_library (pjoin d f) walks cv = false ∧
        dictFind dict (subSuffix f) = none) →
      S.Pairwise (fun a b => endsSng a.1 = true → endsSng b.1 = true →
        subSuffix a.1 ≠ subSuffix b.1) →
      (removeDupGo d walks cv false S dict).removed = [] := by
  intro S
  induction S with
  | nil => intro dict hyp hpw; rfl
  | cons e rest ih =>
    obtain ⟨f0, t0⟩ := e
    intro dict hyp hpw
    rw [List.pairwise_cons] at hpw
    by_cases h1 : endsSng f0 = true
    · obtain ⟨hfd, hdf⟩ := hyp f0 t0 (List.mem_cons_self _ _) h1
      have hr : removeDupGo d walks cv false ((f0, t0) :: rest) dict =
          removeDupGo d walks cv false rest
            (dictSet dict (subSuffix f0) (pjoin d f0, t0)) := by
        simp [removeDupGo, h1, hfd, hdf]
      rw [hr]
      apply ih
      · intro f t hm hsng
        obtain ⟨h5, h6⟩ := hyp f t (List.mem_cons_of_mem _ hm) hsng
        refine ⟨h5, ?_⟩
        rw [dictFind_set_ne dict _ _ _ (Ne.symm (hpw.1 (f, t) hm h1 hsng))]
        exact h6
      · exact hpw.2
    · rw [Bool.not_eq_true] at h1
      have hr : removeDupGo d walks cv false ((f0, t0) :: rest) dict =
          removeDupGo d walks cv false rest dict := by
        simp [removeDupGo, h1]
      rw [hr]
      exact ih dict (fun f t hm hsng => hyp f t (List.mem_cons_of_mem _ hm) hsng) hpw.2

theorem mem_survivors (d : String) (listing : List (String × Nat))
    (r : BatchResult) (f : String) (t : Nat) :
    (f, t) ∈ survivors d listing r ↔
      (f, t) ∈ listing ∧ pjoin d f ∉ removedPaths r := by
  unfold survivors
  rw [List.mem_filter]
  constructor
  · rintro ⟨h1, h2⟩
    rw [Bool.not_eq_true'] at h2
    exact ⟨h1, by simpa using h2⟩
  · rintro ⟨h1, h2⟩
    refine ⟨h1, ?_⟩
    rw [Bool.not_eq_true']
    simpa using h2

/-- C9: batch resolution is idempotent.  After a completed (non-dry) run
over a listing with distinct filenames, running `remove_duplicates` again
over the surviving files — with the same library walks and verification
rules — removes nothing. -/
theorem remove_duplicates_idempotent (d : String) (listing : List (String × Nat))
    (walks : List WalkEntry) (cv : List (String × String))
    (hnd : (listing.map Prod.fst).Nodup) :
    (remove_duplicates d
        (survivors d listing (remove_duplicates d listing walks cv false))
        walks cv false).removed = [] := by
  have hfacts := removeDupGo_run_facts d walks cv listing []
  apply removeDupGo_no_removals
  · intro f t hm hsng
    rw [mem_survivors] at hm
    obtain ⟨hm1, hm2⟩ := hm
    exact ⟨(hfacts.1 f t hm1 hsng hm2).1, rfl⟩
  · have hndS : (survivors d listing
        (remove_duplicates d listing walks cv false)).Nodup :=
      (hnd.of_map Prod.fst).sublist (List.filter_sublist _)
    apply List.Pairwise.imp_of_mem ?_ hndS
    intro a b ha hb hab hsa hsb heq
    obtain ⟨a1, a2⟩ := a
    obtain ⟨b1, b2⟩ := b
    rw [mem_survivors] at ha hb
    obtain ⟨ha1, ha2⟩ := ha
    obtain ⟨hb1, hb2⟩ := hb
    obtain ⟨sza, hka⟩ := (hfacts.1 a1 a2 ha1 hsa ha2).2
    obtain ⟨szb, hkb⟩ := (hfacts.1 b1 b2 hb1 hsb hb2).2
    rw [heq, hkb] at hka
    injection hka with hka
    have hpq : pjoin d b1 = pjoin d a1 := (Prod.ext_iff.mp hka).1
    have hb1a1 : b1 = a1 := pjoin_inj d _ _ hpq
    have hb2a2 : b2 = a2 := mem_name_unique listing hnd b1 b2 a2 hb1 (hb1a1 ▸ ha1)
    exact hab (by rw [Prod.ext_iff]; exact ⟨hb1a1.symm, hb2a2.symm⟩)

theorem remove_duplicates_idempotent_witness :
    (([("A - B (C).sng", (100 : Nat)), ("A - B (C) (1).sng", 200), ("x.txt", 5)]).map
      Prod.fst).Nodup ∧
    (remove_duplicates "/dl"
      (survivors "/dl" [("A - B (C).sng", 100), ("A - B (C) (1).sng", 200), ("x.txt", 5)]
        (remove_duplicates "/dl"
          [("A - B (C).sng", 100), ("A - B (C) (1).sng", 200), ("x.txt", 5)]
          [] [] false))
      [] [] false).removed = [] :=
  ⟨by decide,
    remove_duplicates_idempotent "/dl"
      [("A - B (C).sng", 100), ("A - B (C) (1).sng", 200), ("x.txt", 5)]
      [] [] (by decide)⟩

end ChorusDownload
